import Mathlib

/-
Shallow embedding of the polykey_map repository (src/include/polykey_map.hpp,
class xu::polykey_map).

Modelling choices:
  - std::unordered_map is modelled as an association list whose keys are
    unique in every reachable state; lookup returns the first binding.
    std::unordered_map::insert is a no-op when the key is already present,
    which mapInsert reproduces.  std::unordered_map::erase (by key) removes
    every binding of the key (at most one exists in the real map), which
    mapErase reproduces.  Writing through a reference obtained from
    unordered_map::at is modelled by mapSet.
  - The variadic template pack Path_Ts... becomes a function K : Fin N → Type
    giving the key type of each of the N paths; the per path index tuple
    key_to_ink becomes a dependent function over Fin N.
  - intermediate_key_t is unsigned long long; its arithmetic is modelled as
    Nat modulo inkLimit = 2 ^ 64 (the increment ink_cnt++ wraps).
  - C++ exceptions become an Option PkErr result component returned next to
    the post-call state: key_conflict_error maps to keyConflict, the
    std::out_of_range thrown on a failed key lookup maps to notFound, and the
    std::out_of_range thrown at the insertion limit maps to capacityExceeded.
    Every throw in the source happens before the first mutation of the
    operation, so the error branches of the model return the input state.
  - A value_iterator position is identified with the intermediate key
    it.underlying->first of the entry it points at; the traversal order is
    the order of the ink_to_val association list, and the iterator returned
    by erase(value_iterator) is identified with the list suffix that remains
    to be visited after the erased entry.
-/

namespace xu

/-- Error kinds of the container: key_conflict_error, std::out_of_range from
a failed key lookup, and the std::out_of_range thrown when ink_cnt would
collide with a stored intermediate key. -/
inductive PkErr where
  | keyConflict
  | notFound
  | capacityExceeded
  deriving DecidableEq

/-- Initial value of the intermediate key counter (ink_cnt_init_val = 0). -/
def ink_cnt_init_val : Nat := 0

/-- Modulus of intermediate_key_t (unsigned long long, 64 bits). -/
def inkLimit : Nat := 2 ^ 64

/-- Lookup in an association list modelling std::unordered_map::find:
returns the first binding of the key if any. -/
def lookup {A B : Type} [DecidableEq A] : List (A × B) → A → Option B
  | [], _ => none
  | e :: l, k => if e.1 = k then some e.2 else lookup l k

/-- Insertion modelling std::unordered_map::insert: a no-op when the key is
already present, otherwise a new binding is added. -/
def mapInsert {A B : Type} [DecidableEq A] (l : List (A × B)) (k : A) (v : B) :
    List (A × B) :=
  if (lookup l k).isSome then l else (k, v) :: l

/-- Erasure modelling std::unordered_map::erase by key: removes every binding
of the key (at most one exists in the real map). -/
def mapErase {A B : Type} [DecidableEq A] : List (A × B) → A → List (A × B)
  | [], _ => []
  | e :: l, k => if e.1 = k then mapErase l k else e :: mapErase l k

/-- Overwrite modelling a write through the reference returned by
std::unordered_map::at: every binding of the key is replaced. -/
def mapSet {A B : Type} [DecidableEq A] : List (A × B) → A → B → List (A × B)
  | [], _, _ => []
  | e :: l, k, v => if e.1 = k then (k, v) :: mapSet l k v else e :: mapSet l k v

/-- Removal of the single entry an iterator points at
(std::unordered_map::erase(iterator)): only the first binding is removed. -/
def eraseFirst {A B : Type} [DecidableEq A] : List (A × B) → A → List (A × B)
  | [], _ => []
  | e :: l, k => if e.1 = k then l else e :: eraseFirst l k

/-- The part of the traversal that follows the entry of the given key: the
iterator returned by erase(iterator) has exactly this left to visit. -/
def suffixAfter {A B : Type} [DecidableEq A] : List (A × B) → A → List (A × B)
  | [], _ => []
  | e :: l, k => if e.1 = k then l else suffixAfter l k

/-- The part of the traversal that precedes the entry of the given key. -/
def prefixBefore {A B : Type} [DecidableEq A] : List (A × B) → A → List (A × B)
  | [], _ => []
  | e :: l, k => if e.1 = k then [] else e :: prefixBefore l k

/-- The keyset_t of one stored value: for every path an optional key, plus
the immutable intermediate key ink fixed at construction. -/
structure Keyset (N : Nat) (K : Fin N → Type) where
  keys : (p : Fin N) → Option (K p)
  ink : Nat

/-- The keyset_t constructor: all key slots empty, ink fixed. -/
def Keyset.init {N : Nat} {K : Fin N → Type} (ink : Nat) : Keyset N K :=
  ⟨fun _ => none, ink⟩

/-- keyset_t::set, which overwrites any existing key of path p. -/
def Keyset.set {N : Nat} {K : Fin N → Type} (ks : Keyset N K) (p : Fin N)
    (k : K p) : Keyset N K :=
  ⟨Function.update ks.keys p (some k), ks.ink⟩

/-- The polykey_map state: the counter ink_cnt, the value store ink_to_val,
the keyset store ink_to_keys, and one key index per path (key_to_ink). -/
structure Polykey (V : Type) (N : Nat) (K : Fin N → Type) where
  ink_cnt : Nat
  ink_to_val : List (Nat × V)
  ink_to_keys : List (Nat × Keyset N K)
  key_to_ink : (p : Fin N) → List (K p × Nat)

variable {V : Type} {N : Nat} {K : Fin N → Type} [∀ p, DecidableEq (K p)]

/-- The default-constructed container. -/
def Polykey.empty : Polykey V N K := ⟨ink_cnt_init_val, [], [], fun _ => []⟩

/-- polykey_map::size(): number of stored values. -/
def Polykey.size (m : Polykey V N K) : Nat := m.ink_to_val.length

/-- polykey_map::size<P>(): number of valid keys of one path. -/
def Polykey.sizeAt (p : Fin N) (m : Polykey V N K) : Nat :=
  (m.key_to_ink p).length

/-- polykey_map::insert<P>(key, value).  Throws keyConflict when the key is
already bound in path P, capacityExceeded when ink_cnt is already a stored
intermediate key, and otherwise stores the value under ink_cnt, creates the
keyset with only slot P populated, indexes the key, and increments the
counter (wrapping at 2 ^ 64). -/
def Polykey.insert (p : Fin N) (key : K p) (v : V) (m : Polykey V N K) :
    Polykey V N K × Option PkErr :=
  if (lookup (m.key_to_ink p) key).isSome then
    (m, some .keyConflict)
  else if (lookup m.ink_to_val m.ink_cnt).isSome then
    (m, some .capacityExceeded)
  else
    ({ ink_cnt := (m.ink_cnt + 1) % inkLimit,
       ink_to_val := mapInsert m.ink_to_val m.ink_cnt v,
       ink_to_keys :=
         mapInsert m.ink_to_keys m.ink_cnt ((Keyset.init m.ink_cnt).set p key),
       key_to_ink :=
         Function.update m.key_to_ink p
           (mapInsert (m.key_to_ink p) key m.ink_cnt) }, none)

/-- polykey_map::at<P>(key) (const overload; the non-const overload
delegates to it).  The second lookup models ink_to_val.at(ink), which throws
when the intermediate key is dangling. -/
def Polykey.at' (p : Fin N) (key : K p) (m : Polykey V N K) : Except PkErr V :=
  match lookup (m.key_to_ink p) key with
  | none => .error .notFound
  | some ink =>
    match lookup m.ink_to_val ink with
    | none => .error .notFound
    | some v => .ok v

/-- polykey_map::contains<P>(key). -/
def Polykey.contains (p : Fin N) (key : K p) (m : Polykey V N K) : Bool :=
  (lookup (m.key_to_ink p) key).isSome

/-- polykey_map::link<P1, P2>(key1, key2).  The hypothesis hne renders the
static_assert(P1 != P2).  Neither key bound: notFound.  Both bound:
keyConflict.  Exactly one bound: the keyset of the bound key gains the other
key (keyset_t::set overwrites any previous slot content) and the other key
is indexed under the ink recorded in the keyset. -/
def Polykey.link (p1 p2 : Fin N) (_hne : p1 ≠ p2) (k1 : K p1) (k2 : K p2)
    (m : Polykey V N K) : Polykey V N K × Option PkErr :=
  match lookup (m.key_to_ink p1) k1, lookup (m.key_to_ink p2) k2 with
  | none, none => (m, some .notFound)
  | some _, some _ => (m, some .keyConflict)
  | none, some ink2 =>
    match lookup m.ink_to_keys ink2 with
    | none => (m, some .notFound)
    | some ks =>
      ({ m with
         ink_to_keys := mapSet m.ink_to_keys ink2 (ks.set p1 k1),
         key_to_ink :=
           Function.update m.key_to_ink p1
             (mapInsert (m.key_to_ink p1) k1 ks.ink) }, none)
  | some ink1, none =>
    match lookup m.ink_to_keys ink1 with
    | none => (m, some .notFound)
    | some ks =>
      ({ m with
         ink_to_keys := mapSet m.ink_to_keys ink1 (ks.set p2 k2),
         key_to_ink :=
           Function.update m.key_to_ink p2
             (mapInsert (m.key_to_ink p2) k2 ks.ink) }, none)

/-- polykey_map::is_linked<P1, P2>(key).  The source dereferences the find
result on ink_to_keys without a check; that spot is modelled as notFound and
is unreachable in coherent states. -/
def Polykey.is_linked (p1 p2 : Fin N) (key : K p1) (m : Polykey V N K) :
    Except PkErr Bool :=
  match lookup (m.key_to_ink p1) key with
  | none => .error .notFound
  | some ink =>
    match lookup m.ink_to_keys ink with
    | none => .error .notFound
    | some ks => .ok (ks.keys p2).isSome

/-- polykey_map::convert_key<P1, P2>(key). -/
def Polykey.convert_key (p1 p2 : Fin N) (key : K p1) (m : Polykey V N K) :
    Except PkErr (K p2) :=
  match lookup (m.key_to_ink p1) key with
  | none => .error .notFound
  | some ink =>
    match lookup m.ink_to_keys ink with
    | none => .error .notFound
    | some ks =>
      match ks.keys p2 with
      | none => .error .notFound
      | some k2 => .ok k2

/-- The protected helper _erase<P>(keyset_t&), which walks every path and
removes the slot key of that path from the path index.  The loop touches
each path index exactly once, so it is rendered pointwise. -/
def eraseKeys {N : Nat} {K : Fin N → Type} [∀ p, DecidableEq (K p)]
    (ks : Keyset N K) (kti : (p : Fin N) → List (K p × Nat)) :
    (p : Fin N) → List (K p × Nat) :=
  fun q =>
    match ks.keys q with
    | some kq => mapErase (kti q) kq
    | none => kti q

/-- polykey_map::erase<P>(key): resolve the key, remove every linked key
from its path index, drop the keyset, drop the value.  The second match
models ink_to_keys.at(ink). -/
def Polykey.erase (p : Fin N) (key : K p) (m : Polykey V N K) :
    Polykey V N K × Option PkErr :=
  match lookup (m.key_to_ink p) key with
  | none => (m, some .notFound)
  | some ink =>
    match lookup m.ink_to_keys ink with
    | none => (m, some .notFound)
    | some ks =>
      ({ ink_cnt := m.ink_cnt,
         ink_to_val := mapErase m.ink_to_val ink,
         ink_to_keys := mapErase m.ink_to_keys ink,
         key_to_ink := eraseKeys ks m.key_to_ink }, none)

/-- polykey_map::erase(value_iterator): the position is identified with the
intermediate key it points at; identical keyset and index cleanup, the value
entry removed through the iterator, and the remaining traversal (the
returned iterator) is the suffix after the erased entry. -/
def Polykey.eraseIt (ink : Nat) (m : Polykey V N K) :
    (Polykey V N K × Option PkErr) × List (Nat × V) :=
  match lookup m.ink_to_keys ink with
  | none => ((m, some .notFound), [])
  | some ks =>
    (({ ink_cnt := m.ink_cnt,
        ink_to_val := eraseFirst m.ink_to_val ink,
        ink_to_keys := mapErase m.ink_to_keys ink,
        key_to_ink := eraseKeys ks m.key_to_ink }, none),
     suffixAfter m.ink_to_val ink)

/-- The move constructor polykey_map(polykey_map&&): the three stores are
moved into the destination (a moved-from std::unordered_map is modelled as
emptied) and the source counter is reset to ink_cnt_init_val; result is
(destination, source after the move). -/
def Polykey.moveFrom (other : Polykey V N K) : Polykey V N K × Polykey V N K :=
  (⟨other.ink_cnt, other.ink_to_val, other.ink_to_keys, other.key_to_ink⟩,
   Polykey.empty)

/-- The bundle slot of path p behind an intermediate key, if any. -/
def slotOf (m : Polykey V N K) (ink : Nat) (p : Fin N) : Option (K p) :=
  match lookup m.ink_to_keys ink with
  | none => none
  | some ks => ks.keys p

/-- One direction of the key coherence invariant, as a boolean: if the slot
of path p holds a key, that key is indexed under this intermediate key. -/
def slotBack (m : Polykey V N K) (ink : Nat) (ks : Keyset N K) (p : Fin N) :
    Bool :=
  match ks.keys p with
  | none => true
  | some k => decide (lookup (m.key_to_ink p) k = some ink)

/-- The cross-structure invariants of section 3 of the header documentation:
value store and keyset store share their intermediate keys, every indexed
key resolves to a bundle slot holding exactly that key, every populated slot
is indexed back to its own intermediate key, every keyset records its own
intermediate key, and all three stores have unique keys. -/
def WF (m : Polykey V N K) : Prop :=
  (∀ e ∈ m.ink_to_val, (lookup m.ink_to_keys e.1).isSome = true) ∧
  (∀ e ∈ m.ink_to_keys, (lookup m.ink_to_val e.1).isSome = true) ∧
  (∀ p : Fin N, ∀ e ∈ m.key_to_ink p, slotOf m e.2 p = some e.1) ∧
  (∀ e ∈ m.ink_to_keys, ∀ p : Fin N, slotBack m e.1 e.2 p = true) ∧
  (∀ e ∈ m.ink_to_keys, e.2.ink = e.1) ∧
  (m.ink_to_val.map Prod.fst).Nodup ∧
  (m.ink_to_keys.map Prod.fst).Nodup ∧
  (∀ p : Fin N, ((m.key_to_ink p).map Prod.fst).Nodup)

instance decWF (m : Polykey V N K) : Decidable (WF m) := by
  unfold WF
  infer_instance

/-- One step of a client call sequence. -/
inductive PkOp (V : Type) (N : Nat) (K : Fin N → Type) where
  | ins (p : Fin N) (k : K p) (v : V)
  | del (p : Fin N) (k : K p)
  | lnk (p1 p2 : Fin N) (hne : p1 ≠ p2) (k1 : K p1) (k2 : K p2)

/-- Apply one client call to a state. -/
def applyOp (m : Polykey V N K) : PkOp V N K → Polykey V N K × Option PkErr
  | .ins p k v => Polykey.insert p k v m
  | .del p k => Polykey.erase p k m
  | .lnk p1 p2 hne k1 k2 => Polykey.link p1 p2 hne k1 k2 m

/-- Run a client call sequence and record, in order, the intermediate key
minted by every successful insert (the pre-call ink_cnt). -/
def runTrace (m : Polykey V N K) :
    List (PkOp V N K) → Polykey V N K × List Nat
  | [] => (m, [])
  | op :: t =>
    let r := applyOp m op
    let rest := runTrace r.1 t
    match op, r.2 with
    | .ins _ _ _, none => (rest.1, m.ink_cnt :: rest.2)
    | _, _ => rest

/-- Containers with one Nat key space, used for concrete instances. -/
abbrev Pk1 := Polykey Nat 1 (fun _ => Nat)

/-- Containers with two Nat key spaces, used for concrete instances. -/
abbrev Pk2 := Polykey Nat 2 (fun _ => Nat)

/-- Containers with three Nat key spaces, used for concrete instances. -/
abbrev Pk3 := Polykey Nat 3 (fun _ => Nat)

/-- The state reached from the empty container by n inserts, the i-th insert
storing value i under key i of path 0. -/
def fillN : Nat → Pk1
  | 0 => Polykey.empty
  | n + 1 => (Polykey.insert 0 n n (fillN n)).1

/-- The value store produced by fillN: bindings (i, i) for i below n, most
recent first. -/
def descPairs : Nat → List (Nat × Nat)
  | 0 => []
  | n + 1 => (n, n) :: descPairs n

/-- The keyset store produced by fillN. -/
def descKS : Nat → List (Nat × Keyset 1 (fun _ => Nat))
  | 0 => []
  | n + 1 => (n, (Keyset.init n).set 0 n) :: descKS n

/-- A state whose counter collides with a stored intermediate key, used to
exercise the capacity failure of insert. -/
def pkCapFixture : Pk1 := ⟨0, [(0, 5)], [(0, Keyset.init 0)], fun _ => [(3, 0)]⟩

/-- Concrete run of the source test scenario shape: one value inserted under
key 100 of path 0. -/
def demoS1 : Pk2 := (Polykey.insert 0 100 7 Polykey.empty).1

/-- demoS1 extended by a link that attaches key 200 of path 1. -/
def demoS2 : Pk2 := (Polykey.link 0 1 (by decide) 100 200 demoS1).1

/-- demoS2 after a second link into path 1: key 300 of path 1 is also linked
to the same value even though slot 1 of its keyset already held key 200. -/
def demoS3 : Pk2 := (Polykey.link 0 1 (by decide) 100 300 demoS2).1

/-- A three path container holding one value keyed in every path, used as a
concrete well-formed state. -/
def demoT1 : Pk3 := (Polykey.insert 0 10 55 Polykey.empty).1

/-- demoT1 with key 20 of path 1 linked to the value. -/
def demoT2 : Pk3 := (Polykey.link 0 1 (by decide) 10 20 demoT1).1

/-- A two value single path container, used as a concrete well-formed
state. -/
def demoU2 : Pk1 :=
  (Polykey.insert 0 6 8 (Polykey.insert 0 5 7 Polykey.empty).1).1

section MapLemmas

variable {A B : Type} [DecidableEq A] {l : List (A × B)} {k k' : A} {v : B}

theorem mapInsert_of_none (h : lookup l k = none) :
    mapInsert l k v = (k, v) :: l := by
  simp [mapInsert, h]

theorem lookup_mapInsert_self (h : lookup l k = none) :
    lookup (mapInsert l k v) k = some v := by
  rw [mapInsert_of_none h, lookup]
  simp

theorem lookup_mapInsert_of_ne (h : k' ≠ k) (l : List (A × B)) (v : B) :
    lookup (mapInsert l k v) k' = lookup l k' := by
  unfold mapInsert
  split
  · rfl
  · rw [lookup]
    simp [Ne.symm h]

theorem lookup_mapErase_self (l : List (A × B)) (k : A) :
    lookup (mapErase l k) k = none := by
  induction l with
  | nil => rfl
  | cons e l ih =>
    by_cases h : e.1 = k
    · simp [mapErase, h, ih]
    · simp [mapErase, h, lookup, ih]

theorem lookup_mapErase_of_ne (h : k' ≠ k) (l : List (A × B)) :
    lookup (mapErase l k) k' = lookup l k' := by
  induction l with
  | nil => rfl
  | cons e l ih =>
    by_cases he : e.1 = k
    · subst he
      simp [mapErase, lookup, Ne.symm h, ih]
    · simp [mapErase, he, lookup, ih]

theorem mapErase_of_none (h : lookup l k = none) : mapErase l k = l := by
  induction l with
  | nil => rfl
  | cons e l ih =>
    rw [lookup] at h
    by_cases he : e.1 = k
    · simp [he] at h
    · simp [he] at h
      simp [mapErase, he, ih h]

theorem mapSet_of_none {w : B} (h : lookup l k = none) : mapSet l k w = l := by
  induction l with
  | nil => rfl
  | cons e l ih =>
    rw [lookup] at h
    by_cases he : e.1 = k
    · simp [he] at h
    · simp [he] at h
      simp [mapSet, he, ih h]

theorem lookup_mapSet_self {w : B} (h : (lookup l k).isSome = true) :
    lookup (mapSet l k w) k = some w := by
  induction l with
  | nil => simp [lookup] at h
  | cons e l ih =>
    rw [lookup] at h
    by_cases he : e.1 = k
    · simp [mapSet, he, lookup]
    · simp [he] at h
      simp [mapSet, he, lookup, ih h]

theorem lookup_mapSet_of_ne {w : B} (h : k' ≠ k) (l : List (A × B)) :
    lookup (mapSet l k w) k' = lookup l k' := by
  induction l with
  | nil => rfl
  | cons e l ih =>
    by_cases he : e.1 = k
    · subst he
      simp [mapSet, lookup, Ne.symm h, ih]
    · simp [mapSet, he, lookup, ih]

theorem mem_of_lookup_eq_some (h : lookup l k = some v) : (k, v) ∈ l := by
  induction l with
  | nil => simp [lookup] at h
  | cons e l ih =>
    rcases e with ⟨a, b⟩
    rw [lookup] at h
    by_cases he : a = k
    · subst he
      simp at h
      subst h
      exact List.mem_cons_self _ _
    · simp [he] at h
      exact List.mem_cons_of_mem _ (ih h)

theorem lookup_eq_none_of_not_mem (h : k ∉ l.map Prod.fst) :
    lookup l k = none := by
  induction l with
  | nil => rfl
  | cons e l ih =>
    simp only [List.map_cons, List.mem_cons] at h
    push_neg at h
    rw [lookup]
    simp [Ne.symm h.1, ih h.2]

theorem mapErase_eq_eraseFirst (h : (l.map Prod.fst).Nodup) (k : A) :
    mapErase l k = eraseFirst l k := by
  induction l with
  | nil => rfl
  | cons e l ih =>
    simp only [List.map_cons, List.nodup_cons] at h
    by_cases he : e.1 = k
    · simp [mapErase, eraseFirst, he]
      exact mapErase_of_none (lookup_eq_none_of_not_mem (he ▸ h.1))
    · simp [mapErase, eraseFirst, he, ih h.2]

theorem eraseFirst_eq_append (l : List (A × B)) (k : A) :
    eraseFirst l k = prefixBefore l k ++ suffixAfter l k := by
  induction l with
  | nil => rfl
  | cons e l ih =>
    by_cases he : e.1 = k <;>
      simp [eraseFirst, prefixBefore, suffixAfter, he, ih]

end MapLemmas

section KeysetLemmas

variable {N : Nat} {K : Fin N → Type}

theorem Keyset.set_keys_same (ks : Keyset N K) (p : Fin N) (k : K p) :
    (ks.set p k).keys p = some k := by
  show Function.update ks.keys p (some k) p = some k
  exact Function.update_same p (some k) ks.keys

theorem Keyset.set_keys_of_ne {q p : Fin N} (h : q ≠ p) (ks : Keyset N K)
    (k : K p) : (ks.set p k).keys q = ks.keys q := by
  show Function.update ks.keys p (some k) q = ks.keys q
  exact Function.update_noteq h (some k) ks.keys

theorem Keyset.set_ink (ks : Keyset N K) (p : Fin N) (k : K p) :
    (ks.set p k).ink = ks.ink := rfl

theorem Keyset.init_keys (ink : Nat) (p : Fin N) :
    (Keyset.init (K := K) ink).keys p = none := rfl

theorem Keyset.init_ink (ink : Nat) :
    (Keyset.init (K := K) ink).ink = ink := rfl

end KeysetLemmas

section OpLemmas

variable {V : Type} {N : Nat} {K : Fin N → Type} [∀ p, DecidableEq (K p)]
variable {m : Polykey V N K}

theorem insert_of_fresh {p : Fin N} {key : K p} {v : V}
    (hk : lookup (m.key_to_ink p) key = none)
    (hv : lookup m.ink_to_val m.ink_cnt = none) :
    Polykey.insert p key v m =
      ({ ink_cnt := (m.ink_cnt + 1) % inkLimit,
         ink_to_val := (m.ink_cnt, v) :: m.ink_to_val,
         ink_to_keys :=
           mapInsert m.ink_to_keys m.ink_cnt ((Keyset.init m.ink_cnt).set p key),
         key_to_ink :=
           Function.update m.key_to_ink p
             ((key, m.ink_cnt) :: m.key_to_ink p) }, none) := by
  simp [Polykey.insert, hk, hv, mapInsert_of_none hk, mapInsert_of_none hv]

theorem insert_ok_conditions {p : Fin N} {key : K p} {v : V}
    (h : (Polykey.insert p key v m).2 = none) :
    lookup (m.key_to_ink p) key = none ∧
      lookup m.ink_to_val m.ink_cnt = none := by
  by_cases c1 : (lookup (m.key_to_ink p) key).isSome
  · simp [Polykey.insert, c1] at h
  · by_cases c2 : (lookup m.ink_to_val m.ink_cnt).isSome
    · simp [Polykey.insert, c1, c2] at h
    · rw [Option.not_isSome_iff_eq_none] at c1 c2
      exact ⟨c1, c2⟩

theorem insert_err_state {p : Fin N} {key : K p} {v : V} {e : PkErr}
    (h : (Polykey.insert p key v m).2 = some e) :
    (Polykey.insert p key v m).1 = m := by
  by_cases c1 : (lookup (m.key_to_ink p) key).isSome
  · simp [Polykey.insert, c1]
  · by_cases c2 : (lookup m.ink_to_val m.ink_cnt).isSome
    · simp [Polykey.insert, c1, c2]
    · simp [Polykey.insert, c1, c2] at h

theorem insert_capacity_iff (p : Fin N) (key : K p) (v : V)
    (m : Polykey V N K) :
    (Polykey.insert p key v m).2 = some .capacityExceeded ↔
      lookup (m.key_to_ink p) key = none ∧
        (lookup m.ink_to_val m.ink_cnt).isSome = true := by
  cases hk : lookup (m.key_to_ink p) key with
  | some x => simp [Polykey.insert, hk]
  | none =>
    by_cases c2 : (lookup m.ink_to_val m.ink_cnt).isSome
    · simp [Polykey.insert, hk, c2]
    · simp [Polykey.insert, hk, c2]

theorem insert_ok_ink_cnt {p : Fin N} {key : K p} {v : V}
    (h : (Polykey.insert p key v m).2 = none) :
    (Polykey.insert p key v m).1.ink_cnt = (m.ink_cnt + 1) % inkLimit := by
  obtain ⟨c1, c2⟩ := insert_ok_conditions h
  rw [insert_of_fresh c1 c2]

theorem link_right_of {p1 p2 : Fin N} {hne : p1 ≠ p2} {k1 : K p1} {k2 : K p2}
    {ink1 : Nat} {ks : Keyset N K}
    (h1 : lookup (m.key_to_ink p1) k1 = some ink1)
    (h2 : lookup (m.key_to_ink p2) k2 = none)
    (hks : lookup m.ink_to_keys ink1 = some ks) :
    Polykey.link p1 p2 hne k1 k2 m =
      ({ m with
         ink_to_keys := mapSet m.ink_to_keys ink1 (ks.set p2 k2),
         key_to_ink :=
           Function.update m.key_to_ink p2
             ((k2, ks.ink) :: m.key_to_ink p2) }, none) := by
  simp [Polykey.link, h1, h2, hks, mapInsert_of_none h2]

theorem link_err_state {p1 p2 : Fin N} {hne : p1 ≠ p2} {k1 : K p1}
    {k2 : K p2} {e : PkErr}
    (h : (Polykey.link p1 p2 hne k1 k2 m).2 = some e) :
    (Polykey.link p1 p2 hne k1 k2 m).1 = m := by
  unfold Polykey.link at h ⊢
  cases ha : lookup (m.key_to_ink p1) k1 with
  | none =>
    cases hb : lookup (m.key_to_ink p2) k2 with
    | none => simp [ha, hb]
    | some ink2 =>
      cases hc : lookup m.ink_to_keys ink2 with
      | none => simp [ha, hb, hc]
      | some ks => simp [ha, hb, hc] at h
  | some ink1 =>
    cases hb : lookup (m.key_to_ink p2) k2 with
    | none =>
      cases hc : lookup m.ink_to_keys ink1 with
      | none => simp [ha, hb, hc]
      | some ks => simp [ha, hb, hc] at h
    | some ink2 => simp [ha, hb]

theorem link_ink_cnt (p1 p2 : Fin N) (hne : p1 ≠ p2) (k1 : K p1) (k2 : K p2)
    (m : Polykey V N K) :
    (Polykey.link p1 p2 hne k1 k2 m).1.ink_cnt = m.ink_cnt := by
  unfold Polykey.link
  cases ha : lookup (m.key_to_ink p1) k1 with
  | none =>
    cases hb : lookup (m.key_to_ink p2) k2 with
    | none => simp
    | some ink2 => cases hc : lookup m.ink_to_keys ink2 <;> simp [hc]
  | some ink1 =>
    cases hb : lookup (m.key_to_ink p2) k2 with
    | none => cases hc : lookup m.ink_to_keys ink1 <;> simp [hc]
    | some ink2 => simp

theorem erase_of {p : Fin N} {key : K p} {ink : Nat} {ks : Keyset N K}
    (h : lookup (m.key_to_ink p) key = some ink)
    (hks : lookup m.ink_to_keys ink = some ks) :
    Polykey.erase p key m =
      ({ ink_cnt := m.ink_cnt,
         ink_to_val := mapErase m.ink_to_val ink,
         ink_to_keys := mapErase m.ink_to_keys ink,
         key_to_ink := eraseKeys ks m.key_to_ink }, none) := by
  simp [Polykey.erase, h, hks]

theorem erase_err_state {p : Fin N} {key : K p} {e : PkErr}
    (h : (Polykey.erase p key m).2 = some e) :
    (Polykey.erase p key m).1 = m := by
  unfold Polykey.erase at h ⊢
  cases ha : lookup (m.key_to_ink p) key with
  | none => simp [ha]
  | some ink =>
    cases hb : lookup m.ink_to_keys ink with
    | none => simp [ha, hb]
    | some ks => simp [ha, hb] at h

theorem erase_ink_cnt (p : Fin N) (key : K p) (m : Polykey V N K) :
    (Polykey.erase p key m).1.ink_cnt = m.ink_cnt := by
  unfold Polykey.erase
  cases ha : lookup (m.key_to_ink p) key with
  | none => simp
  | some ink => cases hb : lookup m.ink_to_keys ink <;> simp [hb]

theorem eraseIt_err_state {ink : Nat} {e : PkErr}
    (h : (Polykey.eraseIt ink m).1.2 = some e) :
    (Polykey.eraseIt ink m).1.1 = m := by
  unfold Polykey.eraseIt at h ⊢
  cases ha : lookup m.ink_to_keys ink with
  | none => simp [ha]
  | some ks => simp [ha] at h

theorem eraseKeys_of_some {ks : Keyset N K}
    {kti : (p : Fin N) → List (K p × Nat)} {q : Fin N} {kq : K q}
    (h : ks.keys q = some kq) : eraseKeys ks kti q = mapErase (kti q) kq := by
  unfold eraseKeys
  rw [h]

theorem eraseKeys_of_none {ks : Keyset N K}
    {kti : (p : Fin N) → List (K p × Nat)} {q : Fin N}
    (h : ks.keys q = none) : eraseKeys ks kti q = kti q := by
  unfold eraseKeys
  rw [h]

theorem WF_resolve (hWF : WF m) {p : Fin N} {k : K p} {ink : Nat}
    (h : lookup (m.key_to_ink p) k = some ink) :
    ∃ ks, lookup m.ink_to_keys ink = some ks ∧ ks.keys p = some k ∧
      ks.ink = ink ∧ (lookup m.ink_to_val ink).isSome = true := by
  obtain ⟨_, A2, B, _, D, _⟩ := hWF
  have hm : (k, ink) ∈ m.key_to_ink p := mem_of_lookup_eq_some h
  have hslot := B p (k, ink) hm
  unfold slotOf at hslot
  cases hks : lookup m.ink_to_keys ink with
  | none => rw [hks] at hslot; simp at hslot
  | some ks =>
    rw [hks] at hslot
    simp at hslot
    exact ⟨ks, rfl, hslot, D (ink, ks) (mem_of_lookup_eq_some hks),
      A2 (ink, ks) (mem_of_lookup_eq_some hks)⟩

end OpLemmas

section TraceLemmas

variable {V : Type} {N : Nat} {K : Fin N → Type} [∀ p, DecidableEq (K p)]

theorem runTrace_range :
    ∀ (t : List (PkOp V N K)) (m : Polykey V N K) (n : Nat),
      ((runTrace m t).2).length = n → m.ink_cnt + n ≤ inkLimit →
      (runTrace m t).2 = List.range' m.ink_cnt n := by
  intro t
  induction t with
  | nil =>
    intro m n hlen _
    simp [runTrace] at hlen
    subst hlen
    rfl
  | cons op t ih =>
    intro m n hlen h
    cases op with
    | ins p k v =>
      cases he : (Polykey.insert p k v m).2 with
      | some e =>
        have hst : (Polykey.insert p k v m).1 = m := insert_err_state he
        simp only [runTrace, applyOp, he, hst] at hlen ⊢
        exact ih m n hlen h
      | none =>
        have hik : (Polykey.insert p k v m).1.ink_cnt =
            (m.ink_cnt + 1) % inkLimit := insert_ok_ink_cnt he
        simp only [runTrace, applyOp, he, List.length_cons] at hlen ⊢
        rcases Nat.lt_or_ge (m.ink_cnt + 1) inkLimit with hlt | hge
        · have h1 : (Polykey.insert p k v m).1.ink_cnt = m.ink_cnt + 1 := by
            rw [hik, Nat.mod_eq_of_lt hlt]
          obtain ⟨n0, rfl⟩ : ∃ n0, n = n0 + 1 := ⟨n - 1, by omega⟩
          have hlen0 : ((runTrace (Polykey.insert p k v m).1 t).2).length = n0 := by
            omega
          have hrest := ih (Polykey.insert p k v m).1 n0 hlen0
            (by rw [h1]; omega)
          rw [List.range'_succ, ← h1, ← hrest]
        · have hn1 : n = 1 := by omega
          subst hn1
          have hL : ((runTrace (Polykey.insert p k v m).1 t).2).length = 0 := by
            omega
          rw [List.length_eq_zero] at hL
          rw [hL, List.range'_succ]
          simp
    | del p k =>
      have hik : (Polykey.erase p k m).1.ink_cnt = m.ink_cnt :=
        erase_ink_cnt p k m
      cases he : (Polykey.erase p k m).2 with
      | none =>
        simp only [runTrace, applyOp, he] at hlen ⊢
        have := ih (Polykey.erase p k m).1 n hlen (by rw [hik]; exact h)
        rw [hik] at this
        exact this
      | some e =>
        simp only [runTrace, applyOp, he] at hlen ⊢
        have := ih (Polykey.erase p k m).1 n hlen (by rw [hik]; exact h)
        rw [hik] at this
        exact this
    | lnk p1 p2 hne k1 k2 =>
      have hik : (Polykey.link p1 p2 hne k1 k2 m).1.ink_cnt = m.ink_cnt :=
        link_ink_cnt p1 p2 hne k1 k2 m
      cases he : (Polykey.link p1 p2 hne k1 k2 m).2 with
      | none =>
        simp only [runTrace, applyOp, he] at hlen ⊢
        have := ih (Polykey.link p1 p2 hne k1 k2 m).1 n hlen
          (by rw [hik]; exact h)
        rw [hik] at this
        exact this
      | some e =>
        simp only [runTrace, applyOp, he] at hlen ⊢
        have := ih (Polykey.link p1 p2 hne k1 k2 m).1 n hlen
          (by rw [hik]; exact h)
        rw [hik] at this
        exact this

end TraceLemmas

section FillLemmas

theorem lookup_descPairs (n k : Nat) :
    lookup (descPairs n) k = if k < n then some k else none := by
  induction n with
  | zero => simp [descPairs, lookup]
  | succ n ih =>
    simp only [descPairs, lookup]
    by_cases he : n = k
    · subst he
      simp
    · rw [if_neg he, ih]
      rcases Nat.lt_or_ge k n with h2 | h2
      · rw [if_pos h2, if_pos (by omega)]
      · rw [if_neg (by omega), if_neg (by omega)]

theorem lookup_descKS (n k : Nat) :
    lookup (descKS n) k =
      if k < n then some ((Keyset.init k).set 0 k) else none := by
  induction n with
  | zero => simp [descKS, lookup]
  | succ n ih =>
    simp only [descKS, lookup]
    by_cases he : n = k
    · subst he
      simp
    · rw [if_neg he, ih]
      rcases Nat.lt_or_ge k n with h2 | h2
      · rw [if_pos h2, if_pos (by omega)]
      · rw [if_neg (by omega), if_neg (by omega)]

theorem fillN_spec :
    ∀ n, n ≤ inkLimit →
      fillN n = ⟨n % inkLimit, descPairs n, descKS n, fun _ => descPairs n⟩ := by
  intro n
  induction n with
  | zero => intro _; rfl
  | succ n ih =>
    intro h
    have hn : n < inkLimit := by omega
    have hmod : n % inkLimit = n := Nat.mod_eq_of_lt hn
    have hS := ih (by omega)
    rw [fillN, hS]
    have hk : lookup (descPairs n) n = none := by
      rw [lookup_descPairs]
      simp
    have hv : lookup (descPairs n) (n % inkLimit) = none := by
      rw [hmod, lookup_descPairs]
      simp
    rw [insert_of_fresh
      (m := ⟨n % inkLimit, descPairs n, descKS n, fun _ => descPairs n⟩) hk hv]
    simp only [hmod]
    have h3 : mapInsert (descKS n) n ((Keyset.init n).set 0 n) = descKS (n + 1) := by
      rw [mapInsert_of_none]
      · rfl
      · rw [lookup_descKS]
        simp
    have h4 : Function.update (fun _ : Fin 1 => descPairs n) 0
        ((n, n) :: descPairs n) = fun _ => descPairs (n + 1) := by
      funext q
      have hq : q = 0 := Subsingleton.elim q 0
      subst hq
      rw [Function.update_same]
      rfl
    simp [h3, h4, descPairs]

end FillLemmas

section Claims

variable {V : Type} {N : Nat} {K : Fin N → Type} [∀ p, DecidableEq (K p)]

/-- C2: for every key space P, every key not already present in the index of
P, and every value v, a successful insert of (key, v) through P followed by
at through P returns a value equal to v. -/
theorem insert_at_roundtrip (m : Polykey V N K) (p : Fin N) (key : K p)
    (v : V) (h : (Polykey.insert p key v m).2 = none) :
    Polykey.at' p key (Polykey.insert p key v m).1 = .ok v := by
  obtain ⟨c1, c2⟩ := insert_ok_conditions h
  rw [insert_of_fresh c1 c2]
  simp [Polykey.at', Function.update_same, lookup]

/-- Witness for C2 at a concrete input: inserting value 7 under key 5 of the
single path of the empty container succeeds, and at returns 7. -/
theorem insert_at_roundtrip_witness :
    (Polykey.insert 0 5 7 (Polykey.empty : Pk1)).2 = none ∧
    Polykey.at' 0 5 (Polykey.insert 0 5 7 (Polykey.empty : Pk1)).1 = .ok 7 :=
  ⟨by decide, insert_at_roundtrip Polykey.empty 0 5 7 (by decide)⟩

/-- C4: in a coherent state, link fails with keyConflict exactly when both
keys are bound in their indices, fails with notFound exactly when neither
is, and succeeds exactly when exactly one of them is bound. -/
theorem link_error_conditions (m : Polykey V N K) (p1 p2 : Fin N)
    (hne : p1 ≠ p2) (k1 : K p1) (k2 : K p2) (hWF : WF m) :
    ((Polykey.link p1 p2 hne k1 k2 m).2 = some .keyConflict ↔
        (lookup (m.key_to_ink p1) k1).isSome = true ∧
          (lookup (m.key_to_ink p2) k2).isSome = true) ∧
    ((Polykey.link p1 p2 hne k1 k2 m).2 = some .notFound ↔
        lookup (m.key_to_ink p1) k1 = none ∧
          lookup (m.key_to_ink p2) k2 = none) ∧
    ((Polykey.link p1 p2 hne k1 k2 m).2 = none ↔
        (lookup (m.key_to_ink p1) k1).isSome ≠
          (lookup (m.key_to_ink p2) k2).isSome) := by
  cases ha : lookup (m.key_to_ink p1) k1 with
  | none =>
    cases hb : lookup (m.key_to_ink p2) k2 with
    | none => simp [Polykey.link, ha, hb]
    | some ink2 =>
      obtain ⟨ks, hks, -, -, -⟩ := WF_resolve hWF hb
      simp [Polykey.link, ha, hb, hks]
  | some ink1 =>
    cases hb : lookup (m.key_to_ink p2) k2 with
    | none =>
      obtain ⟨ks, hks, -, -, -⟩ := WF_resolve hWF ha
      simp [Polykey.link, ha, hb, hks]
    | some ink2 => simp [Polykey.link, ha, hb]

/-- Witness for C4 at a concrete input: in the well-formed state demoS1 the
three equivalences hold for key 100 of path 0 and key 200 of path 1. -/
theorem link_error_conditions_witness :
    ((Polykey.link 0 1 (by decide) 100 200 demoS1).2 = some .keyConflict ↔
        (lookup (demoS1.key_to_ink 0) 100).isSome = true ∧
          (lookup (demoS1.key_to_ink 1) 200).isSome = true) ∧
    ((Polykey.link 0 1 (by decide) 100 200 demoS1).2 = some .notFound ↔
        lookup (demoS1.key_to_ink 0) 100 = none ∧
          lookup (demoS1.key_to_ink 1) 200 = none) ∧
    ((Polykey.link 0 1 (by decide) 100 200 demoS1).2 = none ↔
        (lookup (demoS1.key_to_ink 0) 100).isSome ≠
          (lookup (demoS1.key_to_ink 1) 200).isSome) :=
  link_error_conditions demoS1 0 1 (by decide) 100 200 (by decide)

/-- C5: a public operation that fails leaves the container exactly as it
was, and in particular a coherent state stays coherent after the failed
call.  The read-only operations at, contains, is_linked and convert_key are
const-qualified in the source and return no state at all in the model. -/
theorem failure_atomicity (m : Polykey V N K) :
    (∀ (p : Fin N) (key : K p) (v : V) (e : PkErr),
        (Polykey.insert p key v m).2 = some e →
        (Polykey.insert p key v m).1 = m ∧
          (WF m → WF (Polykey.insert p key v m).1)) ∧
    (∀ (p1 p2 : Fin N) (hne : p1 ≠ p2) (k1 : K p1) (k2 : K p2) (e : PkErr),
        (Polykey.link p1 p2 hne k1 k2 m).2 = some e →
        (Polykey.link p1 p2 hne k1 k2 m).1 = m ∧
          (WF m → WF (Polykey.link p1 p2 hne k1 k2 m).1)) ∧
    (∀ (p : Fin N) (key : K p) (e : PkErr),
        (Polykey.erase p key m).2 = some e →
        (Polykey.erase p key m).1 = m ∧
          (WF m → WF (Polykey.erase p key m).1)) ∧
    (∀ (ink : Nat) (e : PkErr),
        (Polykey.eraseIt ink m).1.2 = some e →
        (Polykey.eraseIt ink m).1.1 = m ∧
          (WF m → WF (Polykey.eraseIt ink m).1.1)) := by
  refine ⟨?_, ?_, ?_, ?_⟩
  · intro p key v e h
    have hs := insert_err_state h
    exact ⟨hs, fun hWF => by rw [hs]; exact hWF⟩
  · intro p1 p2 hne k1 k2 e h
    have hs := link_err_state h
    exact ⟨hs, fun hWF => by rw [hs]; exact hWF⟩
  · intro p key e h
    have hs := erase_err_state h
    exact ⟨hs, fun hWF => by rw [hs]; exact hWF⟩
  · intro ink e h
    have hs := eraseIt_err_state h
    exact ⟨hs, fun hWF => by rw [hs]; exact hWF⟩

/-- Witness for C5 at concrete inputs: on the one value state demoS1, a
conflicting insert, a link with neither key bound, an erase of an absent
key, and an iterator erase at a dangling position all fail and leave the
state equal to demoS1. -/
theorem failure_atomicity_witness :
    (Polykey.insert 0 100 9 demoS1).1 = demoS1 ∧
    (Polykey.link 0 1 (by decide) 55 66 demoS1).1 = demoS1 ∧
    (Polykey.erase 0 99 demoS1).1 = demoS1 ∧
    (Polykey.eraseIt 99 demoS1).1.1 = demoS1 :=
  ⟨((failure_atomicity demoS1).1 0 100 9 .keyConflict (by decide)).1,
   ((failure_atomicity demoS1).2.1 0 1 (by decide) 55 66 .notFound
     (by decide)).1,
   ((failure_atomicity demoS1).2.2.1 0 99 .notFound (by decide)).1,
   ((failure_atomicity demoS1).2.2.2 99 .notFound (by decide)).1⟩

/-- C8: move construction transfers every store and the counter to the
destination unchanged and leaves the source empty with its counter reset to
the initial value, ready for reuse: any insert into the moved-from source
succeeds. -/
theorem move_construct_resets_source (m : Polykey V N K) :
    (Polykey.moveFrom m).1 = m ∧
    (Polykey.moveFrom m).2 = Polykey.empty ∧
    (Polykey.moveFrom m).2.ink_cnt = ink_cnt_init_val ∧
    Polykey.size (Polykey.moveFrom m).2 = 0 ∧
    (∀ (p : Fin N) (key : K p) (v : V),
        (Polykey.insert p key v (Polykey.moveFrom m).2).2 = none) := by
  refine ⟨rfl, rfl, rfl, rfl, ?_⟩
  intro p key v
  simp [Polykey.moveFrom, Polykey.empty, Polykey.insert, lookup]

/-- C10: is_linked and convert_key accept equal path indices, and for a key
bound in a path of a coherent state, is_linked of that path with itself
answers true and convert_key of that path with itself returns the key. -/
theorem same_path_reflexive (m : Polykey V N K) (p : Fin N) (k : K p)
    (ink : Nat) (hWF : WF m) (h : lookup (m.key_to_ink p) k = some ink) :
    Polykey.is_linked p p k m = .ok true ∧
    Polykey.convert_key p p k m = .ok k := by
  obtain ⟨ks, hks, hkey, -, -⟩ := WF_resolve hWF h
  constructor
  · simp [Polykey.is_linked, h, hks, hkey]
  · simp [Polykey.convert_key, h, hks, hkey]

/-- Witness for C10 at a concrete input: in demoS1 the key 100 of path 0
satisfies both same path conclusions. -/
theorem same_path_reflexive_witness :
    Polykey.is_linked 0 0 100 demoS1 = .ok true ∧
    Polykey.convert_key 0 0 100 demoS1 = .ok 100 :=
  same_path_reflexive demoS1 0 100 0 (by decide) (by decide)

/-- C3: linking a fresh key k2 of path p2 to a value already keyed by k1 in
path p1 succeeds; afterwards both keys resolve to the same intermediate key,
at through either key gives the same result, is_linked answers true and
convert_key returns k2.  The keyset facts hypothesised here hold in every
coherent state. -/
theorem link_symmetry (m : Polykey V N K) (p1 p2 : Fin N) (hne : p1 ≠ p2)
    (k1 : K p1) (k2 : K p2) (ink1 : Nat) (ks : Keyset N K)
    (h1 : lookup (m.key_to_ink p1) k1 = some ink1)
    (h2 : lookup (m.key_to_ink p2) k2 = none)
    (hks : lookup m.ink_to_keys ink1 = some ks)
    (hink : ks.ink = ink1) :
    (Polykey.link p1 p2 hne k1 k2 m).2 = none ∧
    lookup ((Polykey.link p1 p2 hne k1 k2 m).1.key_to_ink p1) k1 = some ink1 ∧
    lookup ((Polykey.link p1 p2 hne k1 k2 m).1.key_to_ink p2) k2 = some ink1 ∧
    Polykey.at' p2 k2 (Polykey.link p1 p2 hne k1 k2 m).1 =
      Polykey.at' p1 k1 (Polykey.link p1 p2 hne k1 k2 m).1 ∧
    Polykey.is_linked p1 p2 k1 (Polykey.link p1 p2 hne k1 k2 m).1 = .ok true ∧
    Polykey.convert_key p1 p2 k1 (Polykey.link p1 p2 hne k1 k2 m).1 =
      .ok k2 := by
  have hsome : (lookup m.ink_to_keys ink1).isSome = true := by
    rw [hks]
    rfl
  have hset : lookup (mapSet m.ink_to_keys ink1 (ks.set p2 k2)) ink1 =
      some (ks.set p2 k2) := lookup_mapSet_self hsome
  rw [link_right_of h1 h2 hks, hink]
  have hb : lookup
      ((Function.update m.key_to_ink p2 ((k2, ink1) :: m.key_to_ink p2)) p1)
      k1 = some ink1 := by
    rw [Function.update_noteq hne]
    exact h1
  have hc : lookup
      ((Function.update m.key_to_ink p2 ((k2, ink1) :: m.key_to_ink p2)) p2)
      k2 = some ink1 := by
    rw [Function.update_same, lookup]
    simp
  refine ⟨rfl, hb, hc, ?_, ?_, ?_⟩
  · cases hv : lookup m.ink_to_val ink1 with
    | none => simp [Polykey.at', hb, hv, lookup]
    | some w => simp [Polykey.at', hb, hv, lookup]
  · simp [Polykey.is_linked, hb, hset, Keyset.set_keys_same]
  · simp [Polykey.convert_key, hb, hset, Keyset.set_keys_same]

/-- Witness for C3 at a concrete input: linking key 20 of path 1 to the
value keyed by 10 in path 0 of demoT1 satisfies every conclusion. -/
theorem link_symmetry_witness :
    (Polykey.link 0 1 (by decide) 10 20 demoT1).2 = none ∧
    lookup ((Polykey.link 0 1 (by decide) 10 20 demoT1).1.key_to_ink 0) 10 =
      some 0 ∧
    lookup ((Polykey.link 0 1 (by decide) 10 20 demoT1).1.key_to_ink 1) 20 =
      some 0 ∧
    Polykey.at' 1 20 (Polykey.link 0 1 (by decide) 10 20 demoT1).1 =
      Polykey.at' 0 10 (Polykey.link 0 1 (by decide) 10 20 demoT1).1 ∧
    Polykey.is_linked 0 1 10 (Polykey.link 0 1 (by decide) 10 20 demoT1).1 =
      .ok true ∧
    Polykey.convert_key 0 1 10
      (Polykey.link 0 1 (by decide) 10 20 demoT1).1 = .ok 20 :=
  link_symmetry demoT1 0 1 (by decide) 10 20 0
    ((Keyset.init 0).set 0 10) rfl rfl rfl rfl

/-- C9: in a coherent state, erasing through a valid iterator position is
the very same cleanup as erasing by any key of the value at that position
(equal resulting state and equal success), and the returned position is
exactly the remainder of the value store traversal after the erased entry. -/
theorem erase_iterator_equiv (m : Polykey V N K) (p : Fin N) (k : K p)
    (ink : Nat) (hWF : WF m) (h : lookup (m.key_to_ink p) k = some ink) :
    Polykey.eraseIt ink m =
      (Polykey.erase p k m, suffixAfter m.ink_to_val ink) ∧
    (Polykey.erase p k m).1.ink_to_val =
      prefixBefore m.ink_to_val ink ++ suffixAfter m.ink_to_val ink ∧
    (Polykey.erase p k m).2 = none := by
  obtain ⟨ks, hks, -, -, -⟩ := WF_resolve hWF h
  have hnd : (m.ink_to_val.map Prod.fst).Nodup := hWF.2.2.2.2.2.1
  have hval : mapErase m.ink_to_val ink = eraseFirst m.ink_to_val ink :=
    mapErase_eq_eraseFirst hnd ink
  rw [erase_of h hks]
  refine ⟨?_, ?_, rfl⟩
  · simp [Polykey.eraseIt, hks, hval]
  · simp [hval, eraseFirst_eq_append]

/-- Witness for C9 at a concrete input: in the two value state demoU2 the
iterator erase at intermediate key 0 agrees with the erase by key 5 of path
0 and returns the empty remaining traversal. -/
theorem erase_iterator_equiv_witness :
    Polykey.eraseIt 0 demoU2 =
      (Polykey.erase 0 5 demoU2, suffixAfter demoU2.ink_to_val 0) ∧
    (Polykey.erase 0 5 demoU2).1.ink_to_val =
      prefixBefore demoU2.ink_to_val 0 ++ suffixAfter demoU2.ink_to_val 0 ∧
    (Polykey.erase 0 5 demoU2).2 = none :=
  erase_iterator_equiv demoU2 0 5 0 (by decide) (by decide)

/-- C7 fails on the code: linking a second key into the same key space of
the same value is accepted, because link only checks that the new key is
absent from the index; keyset_t::set then overwrites the occupied slot, and
the old key stays in the index pointing at a keyset whose slot holds a
different key.  Concretely, after insert(path 0, 100), link(100, 200 in
path 1), link(100, 300 in path 1), key 200 is still indexed but the slot of
path 1 holds 300, the invariants fail, and after erasing the value by key
100 the key 200 dangles: contains answers true on an empty container and at
throws. -/
theorem link_same_path_incoherence :
    WF demoS2 ∧
    Polykey.contains 1 200 demoS3 = true ∧
    lookup (demoS3.key_to_ink 1) 200 = some 0 ∧
    slotOf demoS3 0 1 = some 300 ∧
    ¬ WF demoS3 ∧
    (Polykey.erase 0 100 demoS3).2 = none ∧
    Polykey.contains 1 200 (Polykey.erase 0 100 demoS3).1 = true ∧
    Polykey.size (Polykey.erase 0 100 demoS3).1 = 0 ∧
    Polykey.at' 1 200 (Polykey.erase 0 100 demoS3).1 =
      .error .notFound := by
  refine ⟨by decide, by decide, by decide, by decide, by decide, by decide,
    by decide, by decide, by rfl⟩

/-- C6 fails on the code as stated: over the lifetime that performs 2 ^ 64
inserts (fillN inkLimit), then erases the value minted first (intermediate
key 0), a further insert succeeds and silently mints intermediate key 0
again, even though 0 was issued to the very first insert of the same
container; no capacityExceeded is raised because the wrap check only tests
whether the counter value is currently stored, not whether it was ever
issued. -/
theorem ink_reuse_after_wrap :
    (Polykey.insert 0 0 0 (Polykey.empty : Pk1)).2 = none ∧
    (Polykey.empty : Pk1).ink_cnt = 0 ∧
    (Polykey.erase 0 0 (fillN inkLimit)).2 = none ∧
    ((Polykey.erase 0 0 (fillN inkLimit)).1).ink_cnt = 0 ∧
    (Polykey.insert 0 inkLimit 0
      ((Polykey.erase 0 0 (fillN inkLimit)).1)).2 = none ∧
    lookup ((Polykey.insert 0 inkLimit 0
      ((Polykey.erase 0 0 (fillN inkLimit)).1)).1.ink_to_val) 0 = some 0 := by
  have hpos : 0 < inkLimit := by norm_num [inkLimit]
  have hne0 : inkLimit ≠ 0 := by norm_num [inkLimit]
  have hW : fillN inkLimit =
      ⟨0, descPairs inkLimit, descKS inkLimit, fun _ => descPairs inkLimit⟩ := by
    have hf := fillN_spec inkLimit (le_refl _)
    rwa [Nat.mod_self] at hf
  have hl0 : lookup (descPairs inkLimit) 0 = some 0 := by
    rw [lookup_descPairs, if_pos hpos]
  have hks0 : lookup (descKS inkLimit) 0 = some ((Keyset.init 0).set 0 0) := by
    rw [lookup_descKS, if_pos hpos]
  have e2 : Polykey.erase 0 0 (fillN inkLimit) =
      ({ ink_cnt := 0,
         ink_to_val := mapErase (descPairs inkLimit) 0,
         ink_to_keys := mapErase (descKS inkLimit) 0,
         key_to_ink := eraseKeys ((Keyset.init 0).set 0 0)
           (fun _ => descPairs inkLimit) }, none) := by
    rw [hW]
    exact erase_of hl0 hks0
  have hkW : lookup (eraseKeys ((Keyset.init 0).set (0 : Fin 1) 0)
      (fun _ : Fin 1 => descPairs inkLimit) 0) inkLimit = none := by
    rw [eraseKeys_of_some (Keyset.set_keys_same _ _ _)]
    rw [lookup_mapErase_of_ne hne0, lookup_descPairs, if_neg (lt_irrefl _)]
  have hvW : lookup (mapErase (descPairs inkLimit) 0) 0 = none :=
    lookup_mapErase_self _ _
  have e3 := @insert_of_fresh Nat 1 (fun _ => Nat) _
    { ink_cnt := 0,
      ink_to_val := mapErase (descPairs inkLimit) 0,
      ink_to_keys := mapErase (descKS inkLimit) 0,
      key_to_ink := eraseKeys ((Keyset.init 0).set 0 0)
        (fun _ => descPairs inkLimit) }
    0 inkLimit 0 hkW hvW
  refine ⟨by decide, rfl, ?_, ?_, ?_, ?_⟩
  · rw [e2]
  · rw [e2]
  · rw [e2]
    simp only [e3]
  · rw [e2]
    simp only [e3]
    rw [lookup]
    simp

/-- C6 amended: along any client call sequence from the empty container in
which at most 2 ^ 64 identities are minted, the minted intermediate keys are
exactly 0, 1, 2, ... in order, hence strictly increasing and never reused;
and insert fails with capacityExceeded exactly when its key is fresh and the
identity the allocator would mint is still present in the value store.  Only
past that bound, when the wrapped counter reaches an identity whose value
has been erased, is an identity silently reused. -/
theorem minted_ids_monotone :
    (∀ t : List (PkOp V N K),
        ((runTrace (Polykey.empty : Polykey V N K) t).2).length ≤ inkLimit →
        (runTrace (Polykey.empty : Polykey V N K) t).2 =
          List.range
            ((runTrace (Polykey.empty : Polykey V N K) t).2).length) ∧
    (∀ (p : Fin N) (key : K p) (v : V) (m : Polykey V N K),
        (Polykey.insert p key v m).2 = some .capacityExceeded ↔
          lookup (m.key_to_ink p) key = none ∧
            (lookup m.ink_to_val m.ink_cnt).isSome = true) := by
  constructor
  · intro t h
    have h2 := runTrace_range t (Polykey.empty : Polykey V N K) _ rfl
      (by simpa [Polykey.empty, ink_cnt_init_val] using h)
    rw [List.range_eq_range']
    exact h2
  · intro p key v m
    exact insert_capacity_iff p key v m

/-- Witness for the amended C6 at concrete inputs: a two insert trace mints
exactly the identities 0 and 1 in order, and an insert into a state whose
counter collides with a stored identity fails with capacityExceeded. -/
theorem minted_ids_monotone_witness :
    (runTrace (Polykey.empty : Pk1)
      [.ins 0 5 7, .ins 0 6 8]).2 = List.range 2 ∧
    (Polykey.insert 0 7 9 pkCapFixture).2 = some .capacityExceeded :=
  ⟨(minted_ids_monotone (V := Nat) (N := 1) (K := fun _ => Nat)).1
      [.ins 0 5 7, .ins 0 6 8] (by decide),
   ((minted_ids_monotone (V := Nat) (N := 1) (K := fun _ => Nat)).2
      0 7 9 pkCapFixture).mpr (by decide)⟩

/-- C1: insert a value under k0 in path p0 into any container in which k0,
k1, k2 are fresh and the counter is unused, link it under k1 in a second
path p1 and under k2 in a third path p2; all three calls succeed, and
erasing by any one of the three keys succeeds, makes contains answer false
for every key that ever pointed to the value, and shrinks the stored value
count by exactly one. -/
theorem erase_cascade (m : Polykey V N K)
    (p0 p1 p2 : Fin N) (k0 : K p0) (k1 : K p1) (k2 : K p2) (v : V)
    (h01 : p0 ≠ p1) (h02 : p0 ≠ p2) (h12 : p1 ≠ p2)
    (hk0 : lookup (m.key_to_ink p0) k0 = none)
    (hk1 : lookup (m.key_to_ink p1) k1 = none)
    (hk2 : lookup (m.key_to_ink p2) k2 = none)
    (hv : lookup m.ink_to_val m.ink_cnt = none)
    (hks : lookup m.ink_to_keys m.ink_cnt = none) :
    (Polykey.insert p0 k0 v m).2 = none ∧
    (Polykey.link p0 p1 h01 k0 k1 (Polykey.insert p0 k0 v m).1).2 = none ∧
    (Polykey.link p0 p2 h02 k0 k2
      (Polykey.link p0 p1 h01 k0 k1 (Polykey.insert p0 k0 v m).1).1).2 =
      none ∧
    ∀ r ∈
      [Polykey.erase p0 k0
         (Polykey.link p0 p2 h02 k0 k2
           (Polykey.link p0 p1 h01 k0 k1 (Polykey.insert p0 k0 v m).1).1).1,
       Polykey.erase p1 k1
         (Polykey.link p0 p2 h02 k0 k2
           (Polykey.link p0 p1 h01 k0 k1 (Polykey.insert p0 k0 v m).1).1).1,
       Polykey.erase p2 k2
         (Polykey.link p0 p2 h02 k0 k2
           (Polykey.link p0 p1 h01 k0 k1 (Polykey.insert p0 k0 v m).1).1).1],
      r.2 = none ∧
      Polykey.contains p0 k0 r.1 = false ∧
      Polykey.contains p1 k1 r.1 = false ∧
      Polykey.contains p2 k2 r.1 = false ∧
      Polykey.size r.1 + 1 =
        Polykey.size
          (Polykey.link p0 p2 h02 k0 k2
            (Polykey.link p0 p1 h01 k0 k1
              (Polykey.insert p0 k0 v m).1).1).1 := by
  have E1 : Polykey.insert p0 k0 v m =
      ({ ink_cnt := (m.ink_cnt + 1) % inkLimit,
         ink_to_val := (m.ink_cnt, v) :: m.ink_to_val,
         ink_to_keys :=
           (m.ink_cnt, (Keyset.init m.ink_cnt).set p0 k0) :: m.ink_to_keys,
         key_to_ink := Function.update m.key_to_ink p0
           ((k0, m.ink_cnt) :: m.key_to_ink p0) }, none) := by
    rw [insert_of_fresh hk0 hv, mapInsert_of_none hks]
  have l1 : lookup (Function.update m.key_to_ink p0
      ((k0, m.ink_cnt) :: m.key_to_ink p0) p0) k0 = some m.ink_cnt := by
    rw [Function.update_same, lookup]
    simp
  have l2 : lookup (Function.update m.key_to_ink p0
      ((k0, m.ink_cnt) :: m.key_to_ink p0) p1) k1 = none := by
    rw [Function.update_noteq (Ne.symm h01)]
    exact hk1
  have lks : lookup
      ((m.ink_cnt, (Keyset.init m.ink_cnt).set p0 k0) :: m.ink_to_keys)
      m.ink_cnt = some ((Keyset.init m.ink_cnt).set p0 k0) := by
    rw [lookup]
    simp
  have E2 : Polykey.link p0 p1 h01 k0 k1
      ({ ink_cnt := (m.ink_cnt + 1) % inkLimit,
         ink_to_val := (m.ink_cnt, v) :: m.ink_to_val,
         ink_to_keys :=
           (m.ink_cnt, (Keyset.init m.ink_cnt).set p0 k0) :: m.ink_to_keys,
         key_to_ink := Function.update m.key_to_ink p0
           ((k0, m.ink_cnt) :: m.key_to_ink p0) } : Polykey V N K) =
      ({ ink_cnt := (m.ink_cnt + 1) % inkLimit,
         ink_to_val := (m.ink_cnt, v) :: m.ink_to_val,
         ink_to_keys :=
           (m.ink_cnt, ((Keyset.init m.ink_cnt).set p0 k0).set p1 k1) ::
             m.ink_to_keys,
         key_to_ink := Function.update
           (Function.update m.key_to_ink p0
             ((k0, m.ink_cnt) :: m.key_to_ink p0)) p1
           ((k1, m.ink_cnt) :: m.key_to_ink p1) }, none) := by
    rw [link_right_of l1 l2 lks]
    simp [mapSet, mapSet_of_none hks, Keyset.set_ink, Keyset.init_ink,
      Function.update_noteq (Ne.symm h01)]
  have l1b : lookup (Function.update
      (Function.update m.key_to_ink p0 ((k0, m.ink_cnt) :: m.key_to_ink p0))
      p1 ((k1, m.ink_cnt) :: m.key_to_ink p1) p0) k0 = some m.ink_cnt := by
    rw [Function.update_noteq h01, Function.update_same, lookup]
    simp
  have l2b : lookup (Function.update
      (Function.update m.key_to_ink p0 ((k0, m.ink_cnt) :: m.key_to_ink p0))
      p1 ((k1, m.ink_cnt) :: m.key_to_ink p1) p2) k2 = none := by
    rw [Function.update_noteq (Ne.symm h12),
      Function.update_noteq (Ne.symm h02)]
    exact hk2
  have lksb : lookup
      ((m.ink_cnt, ((Keyset.init m.ink_cnt).set p0 k0).set p1 k1) ::
        m.ink_to_keys) m.ink_cnt =
      some (((Keyset.init m.ink_cnt).set p0 k0).set p1 k1) := by
    rw [lookup]
    simp
  have E3 : Polykey.link p0 p2 h02 k0 k2
      ({ ink_cnt := (m.ink_cnt + 1) % inkLimit,
         ink_to_val := (m.ink_cnt, v) :: m.ink_to_val,
         ink_to_keys :=
           (m.ink_cnt, ((Keyset.init m.ink_cnt).set p0 k0).set p1 k1) ::
             m.ink_to_keys,
         key_to_ink := Function.update
           (Function.update m.key_to_ink p0
             ((k0, m.ink_cnt) :: m.key_to_ink p0)) p1
           ((k1, m.ink_cnt) :: m.key_to_ink p1) } : Polykey V N K) =
      ({ ink_cnt := (m.ink_cnt + 1) % inkLimit,
         ink_to_val := (m.ink_cnt, v) :: m.ink_to_val,
         ink_to_keys :=
           (m.ink_cnt,
             (((Keyset.init m.ink_cnt).set p0 k0).set p1 k1).set p2 k2) ::
             m.ink_to_keys,
         key_to_ink := Function.update (Function.update
           (Function.update m.key_to_ink p0
             ((k0, m.ink_cnt) :: m.key_to_ink p0)) p1
           ((k1, m.ink_cnt) :: m.key_to_ink p1)) p2
           ((k2, m.ink_cnt) :: m.key_to_ink p2) }, none) := by
    rw [link_right_of l1b l2b lksb]
    simp [mapSet, mapSet_of_none hks, Keyset.set_ink, Keyset.init_ink,
      Function.update_noteq (Ne.symm h12), Function.update_noteq (Ne.symm h02)]
  have K0 : ((((Keyset.init m.ink_cnt).set p0 k0).set p1 k1).set p2 k2).keys
      p0 = some k0 := by
    rw [Keyset.set_keys_of_ne h02, Keyset.set_keys_of_ne h01,
      Keyset.set_keys_same]
  have K1 : ((((Keyset.init m.ink_cnt).set p0 k0).set p1 k1).set p2 k2).keys
      p1 = some k1 := by
    rw [Keyset.set_keys_of_ne h12, Keyset.set_keys_same]
  have K2 : ((((Keyset.init m.ink_cnt).set p0 k0).set p1 k1).set p2 k2).keys
      p2 = some k2 := by
    rw [Keyset.set_keys_same]
  have L0 : lookup (Function.update (Function.update
      (Function.update m.key_to_ink p0 ((k0, m.ink_cnt) :: m.key_to_ink p0))
      p1 ((k1, m.ink_cnt) :: m.key_to_ink p1)) p2
      ((k2, m.ink_cnt) :: m.key_to_ink p2) p0) k0 = some m.ink_cnt := by
    rw [Function.update_noteq h02, Function.update_noteq h01,
      Function.update_same, lookup]
    simp
  have L1 : lookup (Function.update (Function.update
      (Function.update m.key_to_ink p0 ((k0, m.ink_cnt) :: m.key_to_ink p0))
      p1 ((k1, m.ink_cnt) :: m.key_to_ink p1)) p2
      ((k2, m.ink_cnt) :: m.key_to_ink p2) p1) k1 = some m.ink_cnt := by
    rw [Function.update_noteq h12, Function.update_same, lookup]
    simp
  have L2 : lookup (Function.update (Function.update
      (Function.update m.key_to_ink p0 ((k0, m.ink_cnt) :: m.key_to_ink p0))
      p1 ((k1, m.ink_cnt) :: m.key_to_ink p1)) p2
      ((k2, m.ink_cnt) :: m.key_to_ink p2) p2) k2 = some m.ink_cnt := by
    rw [Function.update_same, lookup]
    simp
  have LK : lookup
      ((m.ink_cnt,
         (((Keyset.init m.ink_cnt).set p0 k0).set p1 k1).set p2 k2) ::
        m.ink_to_keys) m.ink_cnt =
      some ((((Keyset.init m.ink_cnt).set p0 k0).set p1 k1).set p2 k2) := by
    rw [lookup]
    simp
  have hvalE : mapErase ((m.ink_cnt, v) :: m.ink_to_val) m.ink_cnt =
      m.ink_to_val := by
    rw [mapErase, if_pos rfl, mapErase_of_none hv]
  refine ⟨?_, ?_, ?_, ?_⟩
  · rw [E1]
  · rw [E1]
    dsimp only
    rw [E2]
  · rw [E1]
    dsimp only
    rw [E2]
    dsimp only
    rw [E3]
  · rw [E1]
    dsimp only
    rw [E2]
    dsimp only
    rw [E3]
    dsimp only
    rw [erase_of L0 LK, erase_of L1 LK, erase_of L2 LK]
    intro r hr
    have hC0 : (lookup (eraseKeys
        ((((Keyset.init m.ink_cnt).set p0 k0).set p1 k1).set p2 k2)
        (Function.update (Function.update
          (Function.update m.key_to_ink p0
            ((k0, m.ink_cnt) :: m.key_to_ink p0)) p1
          ((k1, m.ink_cnt) :: m.key_to_ink p1)) p2
          ((k2, m.ink_cnt) :: m.key_to_ink p2)) p0) k0).isSome = false := by
      rw [eraseKeys_of_some K0, lookup_mapErase_self]
      rfl
    have hC1 : (lookup (eraseKeys
        ((((Keyset.init m.ink_cnt).set p0 k0).set p1 k1).set p2 k2)
        (Function.update (Function.update
          (Function.update m.key_to_ink p0
            ((k0, m.ink_cnt) :: m.key_to_ink p0)) p1
          ((k1, m.ink_cnt) :: m.key_to_ink p1)) p2
          ((k2, m.ink_cnt) :: m.key_to_ink p2)) p1) k1).isSome = false := by
      rw [eraseKeys_of_some K1, lookup_mapErase_self]
      rfl
    have hC2 : (lookup (eraseKeys
        ((((Keyset.init m.ink_cnt).set p0 k0).set p1 k1).set p2 k2)
        (Function.update (Function.update
          (Function.update m.key_to_ink p0
            ((k0, m.ink_cnt) :: m.key_to_ink p0)) p1
          ((k1, m.ink_cnt) :: m.key_to_ink p1)) p2
          ((k2, m.ink_cnt) :: m.key_to_ink p2)) p2) k2).isSome = false := by
      rw [eraseKeys_of_some K2, lookup_mapErase_self]
      rfl
    simp only [List.mem_cons, List.not_mem_nil, or_false] at hr
    rcases hr with rfl | rfl | rfl <;>
      exact ⟨rfl, hC0, hC1, hC2, by
        show (mapErase ((m.ink_cnt, v) :: m.ink_to_val) m.ink_cnt).length + 1 =
          ((m.ink_cnt, v) :: m.ink_to_val).length
        rw [hvalE, List.length_cons]⟩

/-- Witness for C1 at a concrete input: the scenario run from the empty
three path container with keys 5, 6, 7 of paths 0, 1, 2 and value 9. -/
theorem erase_cascade_witness :
    (Polykey.insert 0 5 9 (Polykey.empty : Pk3)).2 = none ∧
    (Polykey.link 0 1 (by decide) 5 6
      (Polykey.insert 0 5 9 (Polykey.empty : Pk3)).1).2 = none ∧
    (Polykey.link 0 2 (by decide) 5 7
      (Polykey.link 0 1 (by decide) 5 6
        (Polykey.insert 0 5 9 (Polykey.empty : Pk3)).1).1).2 = none ∧
    ∀ r ∈
      [Polykey.erase 0 5
         (Polykey.link 0 2 (by decide) 5 7
           (Polykey.link 0 1 (by decide) 5 6
             (Polykey.insert 0 5 9 (Polykey.empty : Pk3)).1).1).1,
       Polykey.erase 1 6
         (Polykey.link 0 2 (by decide) 5 7
           (Polykey.link 0 1 (by decide) 5 6
             (Polykey.insert 0 5 9 (Polykey.empty : Pk3)).1).1).1,
       Polykey.erase 2 7
         (Polykey.link 0 2 (by decide) 5 7
           (Polykey.link 0 1 (by decide) 5 6
             (Polykey.insert 0 5 9 (Polykey.empty : Pk3)).1).1).1],
      r.2 = none ∧
      Polykey.contains 0 5 r.1 = false ∧
      Polykey.contains 1 6 r.1 = false ∧
      Polykey.contains 2 7 r.1 = false ∧
      Polykey.size r.1 + 1 =
        Polykey.size
          (Polykey.link 0 2 (by decide) 5 7
            (Polykey.link 0 1 (by decide) 5 6
              (Polykey.insert 0 5 9 (Polykey.empty : Pk3)).1).1).1 :=
  erase_cascade Polykey.empty 0 1 2 5 6 7 9 (by decide) (by decide)
    (by decide) rfl rfl rfl rfl rfl

end Claims

end xu
